import Mathlib

/-!
Verification of the nestjs-pulsar repository: a shallow embedding of
PulsarProducerService.produce (the per-topic producer cache),
PulsarConsumer.connect / onModuleInit / consume (the
receive-parse-handle-acknowledge loop), and of the JSON / UTF-8 payload
encoding the two sides use (Buffer.from(JSON.stringify v)) on the wire out,
JSON.parse(buffer.toString()) on the wire in).

Characters are modelled as Unicode scalar values (Nat codepoints), bytes as
Nat, JSON numbers as integers (the host's float formatting is outside the
model).  All definitions are executable.
-/

namespace NestjsPulsar

/-- JSON values, as consumed by the host runtime's JSON.stringify and
produced by JSON.parse.  Strings are lists of Unicode scalar values
(codepoints); object members keep their insertion order, as the host does. -/
inductive Json where
  | null : Json
  | bool (b : Bool) : Json
  | num (n : Int) : Json
  | str (s : List Nat) : Json
  | arr (elems : List Json) : Json
  | obj (members : List (List Nat × Json)) : Json

/-- Decimal representation (most significant digit first) of a natural
number, as JSON.stringify prints a non-negative integral number. -/
def natCps (n : Nat) : List Nat :=
  if n < 10 then [48 + n] else natCps (n / 10) ++ [48 + n % 10]
termination_by n
decreasing_by exact Nat.div_lt_self (by omega) (by omega)

/-- Decimal representation of an integer. -/
def intCps (n : Int) : List Nat :=
  if n < 0 then 45 :: natCps n.natAbs else natCps n.natAbs

/-- Lowercase hexadecimal digit codepoint of a value below 16. -/
def hexCp (d : Nat) : Nat :=
  if d < 10 then 48 + d else 87 + d

/-- Escape of one string character as JSON.stringify performs it: quote and
backslash get a backslash escape, the control characters 8, 9, 10, 12, 13
their short escapes, any other control character a \u00XX escape, and every
remaining character stands for itself. -/
def escCps (c : Nat) : List Nat :=
  if c = 34 then [92, 34]
  else if c = 92 then [92, 92]
  else if c = 8 then [92, 98]
  else if c = 9 then [92, 116]
  else if c = 10 then [92, 110]
  else if c = 12 then [92, 102]
  else if c = 13 then [92, 114]
  else if c < 32 then [92, 117, 48, 48, hexCp (c / 16), hexCp (c % 16)]
  else [c]

/-- Quoted JSON string literal for the codepoints of a string. -/
def strCps (s : List Nat) : List Nat :=
  34 :: (s.flatMap escCps ++ [34])

mutual
/-- JSON.stringify on the model: compact printing, no whitespace. -/
def jprint : Json → List Nat
  | .null => [110, 117, 108, 108]
  | .bool true => [116, 114, 117, 101]
  | .bool false => [102, 97, 108, 115, 101]
  | .num n => intCps n
  | .str s => strCps s
  | .arr xs => 91 :: (jprintElems xs ++ [93])
  | .obj ms => 123 :: (jprintMembers ms ++ [125])

/-- Comma-separated printed elements of an array. -/
def jprintElems : List Json → List Nat
  | [] => []
  | [x] => jprint x
  | x :: y :: xs => jprint x ++ 44 :: jprintElems (y :: xs)

/-- Comma-separated printed members (quoted key, colon, value) of an
object. -/
def jprintMembers : List (List Nat × Json) → List Nat
  | [] => []
  | [(k, v)] => strCps k ++ 58 :: jprint v
  | (k, v) :: m :: ms => strCps k ++ 58 :: jprint v ++ 44 :: jprintMembers (m :: ms)
end

/-- Valid Unicode scalar value: a codepoint a well-formed host string can
hold (below the surrogate range, or above it and below 0x110000). -/
def validCp (c : Nat) : Bool :=
  c < 0xD800 || (0xDFFF < c && c < 0x110000)

mutual
/-- Every string codepoint inside the value is a Unicode scalar value:
what holds of any value built from actual host strings. -/
def jwf : Json → Bool
  | .null => true
  | .bool _ => true
  | .num _ => true
  | .str s => s.all validCp
  | .arr xs => jwfElems xs
  | .obj ms => jwfMembers ms

/-- jwf on all elements of an array. -/
def jwfElems : List Json → Bool
  | [] => true
  | x :: xs => jwf x && jwfElems xs

/-- jwf on all keys and values of an object. -/
def jwfMembers : List (List Nat × Json) → Bool
  | [] => true
  | (k, v) :: ms => k.all validCp && jwf v && jwfMembers ms
end

/-- UTF-8 encoding of one scalar value, as Buffer.from produces it. -/
def utf8Char (c : Nat) : List Nat :=
  if c < 0x80 then [c]
  else if c < 0x800 then [0xC0 + c / 64, 0x80 + c % 64]
  else if c < 0x10000 then [0xE0 + c / 4096, 0x80 + c / 64 % 64, 0x80 + c % 64]
  else [0xF0 + c / 262144, 0x80 + c / 4096 % 64, 0x80 + c / 64 % 64, 0x80 + c % 64]

/-- Buffer.from(text): the UTF-8 bytes of the codepoints. -/
def utf8Encode (s : List Nat) : List Nat :=
  s.flatMap utf8Char

/-- Decode one UTF-8 encoded character at the head of the byte list: the
scalar value and the count of bytes consumed beyond the first, or none if
the head is not a well-formed shortest-form encoding of a scalar value. -/
def utf8DecodeChar : List Nat → Option (Nat × Nat)
  | [] => none
  | b :: bs =>
    if b < 0x80 then some (b, 0)
    else if b < 0xC2 then none
    else if b < 0xE0 then
      match bs with
      | b1 :: _ =>
        if 0x80 ≤ b1 ∧ b1 < 0xC0 then some ((b - 0xC0) * 64 + (b1 - 0x80), 1)
        else none
      | [] => none
    else if b < 0xF0 then
      match bs with
      | b1 :: b2 :: _ =>
        if 0x80 ≤ b1 ∧ b1 < 0xC0 ∧ 0x80 ≤ b2 ∧ b2 < 0xC0 then
          let c := (b - 0xE0) * 4096 + (b1 - 0x80) * 64 + (b2 - 0x80)
          if 0x800 ≤ c ∧ validCp c = true then some (c, 2) else none
        else none
      | _ => none
    else if b < 0xF5 then
      match bs with
      | b1 :: b2 :: b3 :: _ =>
        if 0x80 ≤ b1 ∧ b1 < 0xC0 ∧ 0x80 ≤ b2 ∧ b2 < 0xC0 ∧ 0x80 ≤ b3 ∧ b3 < 0xC0 then
          let c := (b - 0xF0) * 262144 + (b1 - 0x80) * 4096 + (b2 - 0x80) * 64 + (b3 - 0x80)
          if 0x10000 ≤ c ∧ c < 0x110000 then some (c, 3) else none
        else none
      | _ => none
    else none

/-- Fuelled worker for the lossy UTF-8 decode; the fuel only needs to reach
the byte count, since every step consumes at least one byte. -/
def utf8DecodeLossyF : Nat → List Nat → List Nat
  | 0, _ => []
  | fuel + 1, bs =>
    match bs with
    | [] => []
    | b :: rest =>
      match utf8DecodeChar (b :: rest) with
      | some (c, k) => c :: utf8DecodeLossyF fuel (rest.drop k)
      | none => 0xFFFD :: utf8DecodeLossyF fuel rest

/-- Buffer.prototype.toString on the model: decode the bytes as UTF-8,
emitting U+FFFD at a malformed position and resuming, never failing. -/
def utf8DecodeLossy (bs : List Nat) : List Nat :=
  utf8DecodeLossyF bs.length bs

/-- JSON whitespace. -/
def isWs (c : Nat) : Bool :=
  c = 32 || c = 9 || c = 10 || c = 13

/-- Drop leading JSON whitespace. -/
def skipWs : List Nat → List Nat
  | [] => []
  | c :: rest => if isWs c then skipWs rest else c :: rest

/-- Decimal digit codepoint. -/
def isDigit (c : Nat) : Bool :=
  48 ≤ c && c ≤ 57

/-- Greedily split leading decimal digits off the input. -/
def takeDigits : List Nat → List Nat × List Nat
  | [] => ([], [])
  | c :: rest =>
    if isDigit c then
      let (ds, r) := takeDigits rest
      (c :: ds, r)
    else ([], c :: rest)

/-- Numeric value of digit codepoints, most significant first. -/
def digitsVal (ds : List Nat) : Nat :=
  ds.foldl (fun a c => a * 10 + (c - 48)) 0

/-- Value of a hexadecimal digit codepoint, if it is one. -/
def hexVal (c : Nat) : Option Nat :=
  if 48 ≤ c && c ≤ 57 then some (c - 48)
  else if 97 ≤ c && c ≤ 102 then some (c - 87)
  else if 65 ≤ c && c ≤ 70 then some (c - 55)
  else none

/-- Character denoted by a one-character JSON escape, if legal. -/
def escDecode (e : Nat) : Option Nat :=
  if e = 34 then some 34
  else if e = 92 then some 92
  else if e = 47 then some 47
  else if e = 98 then some 8
  else if e = 116 then some 9
  else if e = 110 then some 10
  else if e = 102 then some 12
  else if e = 114 then some 13
  else none

/-- Parse the body of a JSON string literal, after the opening quote and up
to and including the closing quote: the decoded codepoints and the input
after the closing quote.  An escaped surrogate (whose meaning would need
pair combining) is rejected. -/
def parseStrBody : List Nat → Option (List Nat × List Nat)
  | [] => none
  | c :: rest =>
    if c = 34 then some ([], rest)
    else if c = 92 then
      match rest with
      | [] => none
      | e :: rest1 =>
        if e = 117 then
          match rest1 with
          | h1 :: h2 :: h3 :: h4 :: rest4 =>
            match hexVal h1, hexVal h2, hexVal h3, hexVal h4 with
            | some d1, some d2, some d3, some d4 =>
              let u := ((d1 * 16 + d2) * 16 + d3) * 16 + d4
              if validCp u then
                match parseStrBody rest4 with
                | some (s, r) => some (u :: s, r)
                | none => none
              else none
            | _, _, _, _ => none
          | _ => none
        else
          match escDecode e with
          | some d =>
            match parseStrBody rest1 with
            | some (s, r) => some (d :: s, r)
            | none => none
          | none => none
    else if c < 32 then none
    else
      match parseStrBody rest with
      | some (s, r) => some (c :: s, r)
      | none => none

/-- Does the input continue with a fraction or exponent marker; such a
number is outside the integer model and rejected. -/
def expoHead : List Nat → Bool
  | [] => false
  | c :: _ => c = 46 || c = 101 || c = 69

/-- The continuation after a printed number: a leading codepoint that
cannot extend the numeric literal (no digit, fraction or exponent marker).
Holds of the separators and closers the printer emits after a number, and
of the end of the input. -/
def numSep : List Nat → Bool
  | [] => true
  | c :: _ => !(isDigit c || c = 46 || c = 101 || c = 69)

/-- Parse an unsigned JSON integer literal: one or more digits, no leading
zero unless the literal is exactly 0, not continued by a fraction or
exponent. -/
def parseNatLit (s : List Nat) : Option (Nat × List Nat) :=
  match takeDigits s with
  | ([], _) => none
  | (d :: ds, r) =>
    if d = 48 ∧ ds ≠ [] then none
    else if expoHead r then none
    else some (digitsVal (d :: ds), r)

/-- Parse a JSON integer literal with optional leading minus. -/
def parseNum (s : List Nat) : Option (Int × List Nat) :=
  match s with
  | [] => none
  | c :: s1 =>
    if c = 45 then (parseNatLit s1).map (fun p => (-(p.1 : Int), p.2))
    else (parseNatLit s).map (fun p => ((p.1 : Int), p.2))

/-- Expect the given literal codepoints at the front of the input. -/
def dropLit : List Nat → List Nat → Option (List Nat)
  | [], s => some s
  | _ :: _, [] => none
  | l :: ls, c :: s => if c = l then dropLit ls s else none

mutual
/-- Parse one JSON value after optional leading whitespace, returning it
with the unconsumed input.  The fuel bounds the nesting of mutual calls;
input length plus one always suffices. -/
def parseVal : Nat → List Nat → Option (Json × List Nat)
  | 0, _ => none
  | fuel + 1, s =>
    match skipWs s with
    | [] => none
    | c :: s1 =>
      if c = 110 then (dropLit [117, 108, 108] s1).map (fun r => (Json.null, r))
      else if c = 116 then (dropLit [114, 117, 101] s1).map (fun r => (Json.bool true, r))
      else if c = 102 then (dropLit [97, 108, 115, 101] s1).map (fun r => (Json.bool false, r))
      else if c = 34 then (parseStrBody s1).map (fun p => (Json.str p.1, p.2))
      else if c = 91 then
        match skipWs s1 with
        | [] => none
        | c2 :: s2 =>
          if c2 = 93 then some (Json.arr [], s2)
          else (parseElems fuel (c2 :: s2)).map (fun p => (Json.arr p.1, p.2))
      else if c = 123 then
        match skipWs s1 with
        | [] => none
        | c2 :: s2 =>
          if c2 = 125 then some (Json.obj [], s2)
          else (parseMembers fuel (c2 :: s2)).map (fun p => (Json.obj p.1, p.2))
      else (parseNum (c :: s1)).map (fun p => (Json.num p.1, p.2))

/-- Parse one or more comma-separated array elements and the closing
bracket. -/
def parseElems : Nat → List Nat → Option (List Json × List Nat)
  | 0, _ => none
  | fuel + 1, s =>
    match parseVal fuel s with
    | none => none
    | some (v, r) =>
      match skipWs r with
      | [] => none
      | c :: r1 =>
        if c = 44 then (parseElems fuel r1).map (fun p => (v :: p.1, p.2))
        else if c = 93 then some ([v], r1)
        else none

/-- Parse one or more comma-separated object members and the closing
brace. -/
def parseMembers : Nat → List Nat → Option (List (List Nat × Json) × List Nat)
  | 0, _ => none
  | fuel + 1, s =>
    match skipWs s with
    | [] => none
    | c :: s1 =>
      if c = 34 then
        match parseStrBody s1 with
        | none => none
        | some (k, r) =>
          match skipWs r with
          | [] => none
          | c2 :: r1 =>
            if c2 = 58 then
              match parseVal fuel r1 with
              | none => none
              | some (v, r2) =>
                match skipWs r2 with
                | [] => none
                | c3 :: r3 =>
                  if c3 = 44 then (parseMembers fuel r3).map (fun p => ((k, v) :: p.1, p.2))
                  else if c3 = 125 then some ([(k, v)], r3)
                  else none
            else none
      else none
end

/-- JSON.parse on the model: parse one value, allow surrounding whitespace,
require that the whole input is consumed. -/
def jparse (s : List Nat) : Option Json :=
  match parseVal (s.length + 1) s with
  | some (v, r) => if skipWs r = [] then some v else none
  | none => none

/-- Message payload decode as PulsarConsumer.consume performs it:
JSON.parse(message.getData().toString()). -/
def decodeData (bs : List Nat) : Option Json :=
  jparse (utf8DecodeLossy bs)

/-- Message payload encode as PulsarProducerService.produce performs it:
Buffer.from(JSON.stringify v). -/
def encodePayload (v : Json) : List Nat :=
  utf8Encode (jprint v)

/-- Values a caller may pass as the message argument of produce: either a
JSON-representable value, or one the host's JSON.stringify rejects with a
thrown TypeError (a circular structure, a BigInt).  Modelled from the spec:
the serialization behaviour of the host's JSON.stringify is not code of
this repository. -/
inductive JsValue where
  | repr (v : Json) : JsValue
  | nonRepr : JsValue

/-- JSON.stringify as produce uses it: the printed text of a representable
value, none (the thrown TypeError) otherwise. -/
def jsStringify : JsValue → Option (List Nat)
  | .repr v => some (jprint v)
  | .nonRepr => none

/-- State of a PulsarProducerService instance together with the calls it
has issued so far on its collaborators: the producers Map (topic to
producer, in insertion order as the host Map iterates), a supply of fresh
producer handles from the client, the topics of the createProducer calls
in order, and the send calls (producer handle and byte payload) in
order. -/
structure ProducerState where
  producers : List (String × Nat)
  nextId : Nat
  createCalls : List String
  sends : List (Nat × List Nat)

/-- A freshly constructed PulsarProducerService: empty Map, no calls. -/
def initProducerState : ProducerState :=
  ⟨[], 0, [], []⟩

/-- Map.prototype.get on the association list. -/
def mapGet (m : List (String × Nat)) (topic : String) : Option Nat :=
  match m with
  | [] => none
  | (t, p) :: rest => if t = topic then some p else mapGet rest topic

/-- PulsarProducerService.produce topic message: look the topic up in the
producers Map; on a miss, createProducer for the topic and insert the new
producer into the Map; then send Buffer.from(JSON.stringify(message)).  A
stringify failure rejects the call to its caller after the Map update and
before any send; createProducer is modelled as succeeding (transport
failures of the collaborator are outside the claims). -/
def produce (st : ProducerState) (topic : String) (message : JsValue) :
    ProducerState × Except Unit Unit :=
  let found := mapGet st.producers topic
  let p := found.getD st.nextId
  let st1 :=
    match found with
    | some _ => st
    | none =>
      { st with
        producers := st.producers ++ [(topic, st.nextId)]
        nextId := st.nextId + 1
        createCalls := st.createCalls ++ [topic] }
  match jsStringify message with
  | none => (st1, .error ())
  | some text => ({ st1 with sends := st1.sends ++ [(p, utf8Encode text)] }, .ok ())

/-- A finite sequence of produce calls executed sequentially; each call is
issued whether or not an earlier one rejected. -/
def runProduce (st : ProducerState) : List (String × JsValue) → ProducerState
  | [] => st
  | (t, m) :: calls => runProduce (produce st t m).1 calls

/-- Observable events of one run of the consumer loop body. -/
inductive Event where
  | receiveCall : Event
  | logData (v : Json) : Event
  | handleCall (v : Json) : Event
  | logConsumeError : Event
  | ackCall : Event
  | logAckError : Event

/-- Is the event a receive call. -/
def isReceive : Event → Bool
  | .receiveCall => true
  | _ => false

/-- Is the event an acknowledge call. -/
def isAck : Event → Bool
  | .ackCall => true
  | _ => false

/-- Is the event an invocation of handleMessage. -/
def isHandle : Event → Bool
  | .handleCall _ => true
  | _ => false

/-- Is the event the logging of the first catch block, reached on a
receive, decode or handler error. -/
def isConsumeErr : Event → Bool
  | .logConsumeError => true
  | _ => false

/-- Behaviour of the collaborators during one iteration of the loop:
the outcome of the receive call (none models a thrown receive error, some
bs a received message with payload bytes bs), whether the acknowledge call
throws, and whether a subclass clears isRunning at a suspension point of
this iteration (the base class itself never writes the flag). -/
structure IterInput where
  recv : Option (List Nat)
  ackFails : Bool
  clearFlag : Bool

/-- One iteration body of PulsarConsumer.consume as the events it emits,
given which decoded values make the subclass handleMessage throw.  The
first try block sets the local message variable from receive, decodes,
logs the data with its id and invokes handleMessage; any error there is
caught and logged.  The second try block acknowledges exactly when the
message variable was assigned, i.e. when receive returned; an acknowledge
error is caught and logged. -/
def iterEvents (handlerThrows : Json → Bool) (i : IterInput) : List Event :=
  Event.receiveCall ::
    match i.recv with
    | none => [Event.logConsumeError]
    | some bs =>
      (match decodeData bs with
       | none => [Event.logConsumeError]
       | some v =>
         Event.logData v :: Event.handleCall v ::
           (if handlerThrows v then [Event.logConsumeError] else [])) ++
      Event.ackCall :: (if i.ackFails then [Event.logAckError] else [])

/-- PulsarConsumer.consume: while isRunning, run one loop iteration; the
flag is read only at the top of an iteration, so a clear inside an
iteration takes effect at the next top-of-loop check.  Returns the emitted
events of the observed iterations and the final flag value; the input list
is the finite portion of the environment behaviour being observed. -/
def consume (handlerThrows : Json → Bool) : Bool → List IterInput → List Event × Bool
  | false, _ => ([], false)
  | true, [] => ([], true)
  | true, i :: rest =>
    let next := consume handlerThrows (!i.clearFlag) rest
    (iterEvents handlerThrows i ++ next.1, next.2)

/-- Observable events of PulsarConsumer.connect. -/
inductive ConnectEvent where
  | subscribeCall : ConnectEvent
  | consumeStart : ConnectEvent

/-- Is the event the beginning of an invocation of the consume loop. -/
def isStart : ConnectEvent → Bool
  | .consumeStart => true
  | _ => false

/-- PulsarConsumer.connect: await client.subscribe(config), propagating a
subscribe failure to the caller with nothing started; after a successful
subscribe, begin the consume loop twice: the direct call (await
this.consume()) begins one invocation at once, and the nextTick-scheduled
callback begins a second invocation at the next tick, while the first is
suspended in its receive.  connect never writes isRunning; the returned
flag is the one passed in. -/
def connectModel (running : Bool) (subscribeOk : Bool) :
    Except Unit (List ConnectEvent × Bool) :=
  if subscribeOk then
    .ok ([ConnectEvent.subscribeCall, ConnectEvent.consumeStart, ConnectEvent.consumeStart],
      running)
  else .error ()

/-- PulsarConsumer.onModuleInit: await this.connect(). -/
def onModuleInitModel (running : Bool) (subscribeOk : Bool) :
    Except Unit (List ConnectEvent × Bool) :=
  connectModel running subscribeOk

/-- Initial value of the isRunning field, as declared in the class body. -/
def initIsRunning : Bool :=
  true

/-! Helper lemmas about the consumer loop trace. -/

/-- Every loop iteration issues exactly one receive call. -/
theorem iterEvents_receive_count (h : Json → Bool) (i : IterInput) :
    (iterEvents h i).countP isReceive = 1 := by
  cases hr : i.recv with
  | none => simp [iterEvents, hr, isReceive]
  | some bs =>
    cases hd : decodeData bs with
    | none =>
      cases ha : i.ackFails <;>
        simp [iterEvents, hr, hd, ha, isReceive, List.countP_cons, List.countP_append]
    | some v =>
      cases hh : h v <;> cases ha : i.ackFails <;>
        simp [iterEvents, hr, hd, hh, ha, isReceive, List.countP_cons, List.countP_append]

/-- The loop trace over inputs that never clear the flag is the
concatenation of the iteration traces, and the flag stays true. -/
theorem consume_all (h : Json → Bool) (inputs : List IterInput)
    (hext : ∀ j ∈ inputs, j.clearFlag = false) :
    consume h true inputs = (inputs.flatMap (iterEvents h), true) := by
  induction inputs with
  | nil => simp [consume]
  | cons i rest ih =>
    have hi : i.clearFlag = false := hext i (by simp)
    have hrest : ∀ j ∈ rest, j.clearFlag = false := fun j hj => hext j (by simp [hj])
    simp [consume, hi, ih hrest]

/-! C3, C4, C6, C7, C10: the consumer loop claims. -/

/-- C3: a received message whose payload is not valid JSON is never given
to handleMessage, the decode error is logged exactly once, acknowledge is
called exactly once for it, and the loop continues with the next
iteration. -/
theorem invalid_payload_acked_unhandled (h : Json → Bool) (i : IterInput)
    (bs : List Nat) (hrecv : i.recv = some bs) (hbad : decodeData bs = none) :
    (iterEvents h i).countP isHandle = 0 ∧
    (iterEvents h i).countP isConsumeErr = 1 ∧
    (iterEvents h i).countP isAck = 1 ∧
    (∀ rest, consume h true (i :: rest) =
      (iterEvents h i ++ (consume h (!i.clearFlag) rest).1,
        (consume h (!i.clearFlag) rest).2)) := by
  refine ⟨?_, ?_, ?_, fun rest => by simp [consume]⟩ <;>
    cases ha : i.ackFails <;>
      simp [iterEvents, hrecv, hbad, ha, isHandle, isConsumeErr, isAck,
        List.countP_cons, List.countP_append]

/-- Witness for C3: the payload bytes of the UTF-8 text not-json. -/
theorem invalid_payload_acked_unhandled_witness :
    decodeData [110, 111, 116, 45, 106, 115, 111, 110] = none ∧
    (iterEvents (fun _ => false)
        ⟨some [110, 111, 116, 45, 106, 115, 111, 110], false, false⟩).countP isAck = 1 :=
  ⟨rfl,
    (invalid_payload_acked_unhandled (fun _ => false)
      ⟨some [110, 111, 116, 45, 106, 115, 111, 110], false, false⟩
      [110, 111, 116, 45, 106, 115, 111, 110] rfl rfl).2.2.1⟩

/-- C4: a received message that decodes but whose handleMessage invocation
throws still has the error caught and logged inside the loop, the loop
does not terminate, and acknowledge is called exactly once for it. -/
theorem handler_error_caught_acked (h : Json → Bool) (i : IterInput)
    (bs : List Nat) (v : Json) (hrecv : i.recv = some bs)
    (hdec : decodeData bs = some v) (hthrow : h v = true) :
    Event.handleCall v ∈ iterEvents h i ∧
    (iterEvents h i).countP isConsumeErr = 1 ∧
    (iterEvents h i).countP isAck = 1 ∧
    (∀ rest, consume h true (i :: rest) =
      (iterEvents h i ++ (consume h (!i.clearFlag) rest).1,
        (consume h (!i.clearFlag) rest).2)) := by
  refine ⟨?_, ?_, ?_, fun rest => by simp [consume]⟩ <;>
    cases ha : i.ackFails <;>
      simp [iterEvents, hrecv, hdec, hthrow, ha, isConsumeErr, isAck,
        List.countP_cons, List.countP_append]

/-- Witness for C4: payload bytes of the text 7, a handler that always
throws. -/
theorem handler_error_caught_acked_witness :
    decodeData [55] = some (Json.num 7) ∧
    (iterEvents (fun _ => true) ⟨some [55], false, false⟩).countP isAck = 1 :=
  ⟨rfl,
    (handler_error_caught_acked (fun _ => true) ⟨some [55], false, false⟩
      [55] (Json.num 7) rfl rfl rfl).2.2.1⟩

/-- C6: the running flag is read only at the top of an iteration: when it
is cleared during iteration i (after any earlier iterations that leave it
set), that in-flight iteration still completes in full, and afterwards the
trace is empty — in particular no further receive call is ever issued, the
total receive count being one per completed iteration — and the loop has
exited with the flag false. -/
theorem no_receive_after_stop (h : Json → Bool) (pre post : List IterInput)
    (i : IterInput) (hpre : ∀ j ∈ pre, j.clearFlag = false)
    (hstop : i.clearFlag = true) :
    (consume h true (pre ++ i :: post)).1 = (pre ++ [i]).flatMap (iterEvents h) ∧
    (consume h true (pre ++ i :: post)).1.countP isReceive = pre.length + 1 ∧
    (consume h true (pre ++ i :: post)).2 = false := by
  have key : consume h true (pre ++ i :: post) =
      ((pre ++ [i]).flatMap (iterEvents h), false) := by
    induction pre with
    | nil => simp [consume, hstop]
    | cons j rest ih =>
      have hj : j.clearFlag = false := hpre j (by simp)
      have hrest : ∀ x ∈ rest, x.clearFlag = false := fun x hx => hpre x (by simp [hx])
      simp [consume, hj, ih hrest]
  refine ⟨by simp [key], ?_, by simp [key]⟩
  rw [key]
  simp only [List.countP_flatMap]
  have hmap : ∀ l : List IterInput,
      (List.map (List.countP isReceive ∘ iterEvents h) l).sum = l.length := by
    intro l
    induction l with
    | nil => rfl
    | cons j rest ih => simp [Function.comp, iterEvents_receive_count, ih]; omega
  simp [hmap, iterEvents_receive_count]

/-- Witness for C6: one plain iteration, then an iteration during which
the flag is cleared, then further environment input that the loop never
touches. -/
theorem no_receive_after_stop_witness :
    (∀ j ∈ [(⟨some [55], false, false⟩ : IterInput)], j.clearFlag = false) ∧
    (⟨none, false, true⟩ : IterInput).clearFlag = true ∧
    (consume (fun _ => false) true
        ([⟨some [55], false, false⟩] ++ (⟨none, false, true⟩ : IterInput) ::
          [⟨some [55], false, false⟩])).1.countP isReceive = 2 :=
  ⟨by simp, rfl,
    (no_receive_after_stop (fun _ => false) [⟨some [55], false, false⟩]
      [⟨some [55], false, false⟩] ⟨none, false, true⟩ (by simp) rfl).2.1⟩

/-- C7: in one loop iteration, acknowledge is attempted exactly when the
receive call returned a message: a failed receive is caught and logged
with no acknowledge attempt, and the loop proceeds to the next
iteration. -/
theorem ack_iff_received (h : Json → Bool) (i : IterInput) :
    (Event.ackCall ∈ iterEvents h i ↔ i.recv.isSome = true) ∧
    (iterEvents h i).countP isAck = (if i.recv.isSome then 1 else 0) ∧
    (∀ af cf, iterEvents h ⟨none, af, cf⟩ =
      [Event.receiveCall, Event.logConsumeError]) ∧
    (∀ rest, consume h true (i :: rest) =
      (iterEvents h i ++ (consume h (!i.clearFlag) rest).1,
        (consume h (!i.clearFlag) rest).2)) := by
  refine ⟨?_, ?_, fun af cf => by simp [iterEvents], fun rest => by simp [consume]⟩ <;>
    cases hr : i.recv with
    | none => simp [iterEvents, hr, isAck]
    | some bs =>
      cases hd : decodeData bs with
      | none =>
        cases ha : i.ackFails <;>
          simp [iterEvents, hr, hd, ha, isAck, List.countP_cons, List.countP_append]
      | some v =>
        cases hh : h v <;> cases ha : i.ackFails <;>
          simp [iterEvents, hr, hd, hh, ha, isAck, List.countP_cons, List.countP_append]

/-- Witness for C7 at a concrete iteration input. -/
theorem ack_iff_received_witness :
    (iterEvents (fun _ => false) ⟨some [55], false, false⟩).countP isAck =
      (if (some [55] : Option (List Nat)).isSome then 1 else 0) :=
  (ack_iff_received (fun _ => false) ⟨some [55], false, false⟩).2.1

/-- C10: no operation of the abstract base class clears the running flag:
isRunning is initialized to true, connect (and onModuleInit, which only
calls connect) returns the flag it was given, and a run of consume in
which no subclass clears the flag keeps it true while processing every
iteration — the base class alone has no stop path. -/
theorem base_class_no_stop_path (h : Json → Bool) (inputs : List IterInput)
    (hext : ∀ j ∈ inputs, j.clearFlag = false) :
    initIsRunning = true ∧
    (∀ r ok res, connectModel r ok = .ok res → res.2 = r) ∧
    (∀ r ok, onModuleInitModel r ok = connectModel r ok) ∧
    (consume h true inputs).2 = true ∧
    (consume h true inputs).1 = inputs.flatMap (iterEvents h) := by
  refine ⟨rfl, ?_, fun r ok => rfl, ?_, ?_⟩
  · intro r ok res hres
    cases ok with
    | true => simp [connectModel] at hres; simp [← hres]
    | false => simp [connectModel] at hres
  · simp [consume_all h inputs hext]
  · simp [consume_all h inputs hext]

/-- Witness for C10 at a concrete input list. -/
theorem base_class_no_stop_path_witness :
    (∀ j ∈ [(⟨some [55], false, false⟩ : IterInput), ⟨none, true, false⟩],
      j.clearFlag = false) ∧
    (consume (fun _ => false) true
      [(⟨some [55], false, false⟩ : IterInput), ⟨none, true, false⟩]).2 = true :=
  ⟨by simp,
    (base_class_no_stop_path (fun _ => false)
      [⟨some [55], false, false⟩, ⟨none, true, false⟩] (by simp)).2.2.2.1⟩

/-! C1: how many consume invocations connect begins. -/

/-- C1 (divergence witness): after a successful subscribe, connect begins
the consume loop twice, not once — once through the direct await
this.consume() call and once through the nextTick-scheduled callback. -/
theorem connect_starts_consume_twice :
    connectModel true true =
      .ok ([ConnectEvent.subscribeCall, ConnectEvent.consumeStart,
        ConnectEvent.consumeStart], true) ∧
    (connectModel true true).toOption.map (fun r => r.1.countP isStart) = some 2 := by
  exact ⟨rfl, rfl⟩

/-! C5, C9: producer-side error handling. -/

/-- C5: a produce call whose message JSON.stringify rejects is rejected to
the caller and performs no send at all. -/
theorem serialization_error_no_send (st : ProducerState) (topic : String)
    (m : JsValue) (hser : jsStringify m = none) :
    (produce st topic m).2 = .error () ∧
    (produce st topic m).1.sends = st.sends := by
  cases hf : mapGet st.producers topic <;> simp [produce, hf, hser]

/-- Witness for C5. -/
theorem serialization_error_no_send_witness :
    jsStringify JsValue.nonRepr = none ∧
    (produce initProducerState "events" JsValue.nonRepr).2 = .error () :=
  ⟨rfl, (serialization_error_no_send initProducerState "events" JsValue.nonRepr rfl).1⟩

/-- The producers Map after an insertion, looked up at the inserted key. -/
theorem mapGet_append_self (l : List (String × Nat)) (t : String) (p : Nat)
    (hnone : mapGet l t = none) : mapGet (l ++ [(t, p)]) t = some p := by
  induction l with
  | nil => simp [mapGet]
  | cons hd tl ih =>
    obtain ⟨u, q⟩ := hd
    by_cases hu : u = t
    · simp [mapGet, hu] at hnone
    · simp [mapGet, hu] at hnone ⊢
      exact ih hnone

/-- C9: a produce call for an uncached topic whose message JSON.stringify
rejects still mutates the cache first: the created producer stays in the
Map and the createProducer call stays recorded even though the call is
rejected. -/
theorem failed_produce_leaves_cache_entry (st : ProducerState) (topic : String)
    (m : JsValue) (hmiss : mapGet st.producers topic = none)
    (hser : jsStringify m = none) :
    mapGet (produce st topic m).1.producers topic = some st.nextId ∧
    (produce st topic m).1.createCalls = st.createCalls ++ [topic] ∧
    (produce st topic m).2 = .error () := by
  simp [produce, hmiss, hser, mapGet_append_self st.producers topic st.nextId hmiss]

/-- Witness for C9. -/
theorem failed_produce_leaves_cache_entry_witness :
    mapGet initProducerState.producers "events" = none ∧
    jsStringify JsValue.nonRepr = none ∧
    mapGet (produce initProducerState "events" JsValue.nonRepr).1.producers "events" =
      some initProducerState.nextId :=
  ⟨rfl, rfl,
    (failed_produce_leaves_cache_entry initProducerState "events" JsValue.nonRepr
      rfl rfl).1⟩

/-! C2: the per-topic producer cache. -/

/-- Lookup in the producers Map after an insertion at a different key. -/
theorem mapGet_append_other (l : List (String × Nat)) (t u : String) (p : Nat)
    (hne : t ≠ u) : mapGet (l ++ [(t, p)]) u = mapGet l u := by
  induction l with
  | nil => simp [mapGet, hne]
  | cons hd tl ih =>
    obtain ⟨w, q⟩ := hd
    by_cases hw : w = u <;> simp [mapGet, hw, ih]

/-- The producers Map and the createProducer call log after one produce
call: a cached topic leaves both unchanged; an uncached topic gains a Map
entry and one createProducer call. -/
theorem produce_cache_step (st : ProducerState) (topic : String) (m : JsValue) :
    ((produce st topic m).1.producers, (produce st topic m).1.createCalls) =
      match mapGet st.producers topic with
      | some _ => (st.producers, st.createCalls)
      | none => (st.producers ++ [(topic, st.nextId)], st.createCalls ++ [topic]) := by
  cases hf : mapGet st.producers topic <;> cases hs : jsStringify m <;>
    simp [produce, hf, hs]

/-- Auxiliary induction for C2: running produce calls from a state whose
createProducer call log counts each topic exactly once per cached producer
yields a final log counting each topic once exactly when it was cached
before or is sent to by the calls. -/
theorem runProduce_count (calls : List (String × JsValue)) :
    ∀ st : ProducerState,
      (∀ v, st.createCalls.count v = if (mapGet st.producers v).isSome then 1 else 0) →
      ∀ u, (runProduce st calls).createCalls.count u =
        if (mapGet st.producers u).isSome ∨ u ∈ calls.map Prod.fst then 1 else 0 := by
  induction calls with
  | nil =>
    intro st hinv u
    simp [runProduce, hinv u]
  | cons c rest ih =>
    intro st hinv u
    obtain ⟨t, m⟩ := c
    have hstep := produce_cache_step st t m
    have hrun : runProduce st ((t, m) :: rest) = runProduce (produce st t m).1 rest := rfl
    cases hf : mapGet st.producers t with
    | some p =>
      rw [hf] at hstep
      obtain ⟨h1, h2⟩ := Prod.mk.injEq _ _ _ _ ▸ hstep
      have hinv' : ∀ v, (produce st t m).1.createCalls.count v =
          if (mapGet (produce st t m).1.producers v).isSome then 1 else 0 := by
        intro v
        rw [h1, h2]
        exact hinv v
      rw [hrun, ih (produce st t m).1 hinv' u, h1]
      by_cases hu : u = t
      · subst hu
        simp [hf]
      · exact if_congr (by simp [hu]) rfl rfl
    | none =>
      rw [hf] at hstep
      obtain ⟨h1, h2⟩ := Prod.mk.injEq _ _ _ _ ▸ hstep
      have hinv' : ∀ v, (produce st t m).1.createCalls.count v =
          if (mapGet (produce st t m).1.producers v).isSome then 1 else 0 := by
        intro v
        rw [h1, h2]
        by_cases hv : v = t
        · subst hv
          rw [mapGet_append_self st.producers v st.nextId hf]
          have h0 : st.createCalls.count v = 0 := by simp [hinv v, hf]
          simp [List.count_append, h0]
        · rw [mapGet_append_other st.producers t v st.nextId (fun he => hv he.symm)]
          have hne : ¬ t = v := fun he => hv he.symm
          simp [List.count_append, List.count_cons, hinv v, hne]
      rw [hrun, ih (produce st t m).1 hinv' u, h1]
      by_cases hu : u = t
      · subst hu
        rw [mapGet_append_self st.producers u st.nextId hf]
        simp
      · rw [mapGet_append_other st.producers t u st.nextId (fun he => hu he.symm)]
        exact if_congr (by simp [hu]) rfl rfl

/-- C2: over any sequence of produce calls executed in order, the client's
createProducer is called exactly once per distinct topic occurring in the
sequence: the first produce for a topic creates (and caches) its producer
and no later produce for that topic issues another creation call. -/
theorem createProducer_once_per_topic (calls : List (String × JsValue)) (topic : String) :
    (runProduce initProducerState calls).createCalls.count topic =
      if topic ∈ calls.map Prod.fst then 1 else 0 := by
  have h := runProduce_count calls initProducerState
    (by intro v; simp [initProducerState, mapGet]) topic
  rw [h]
  exact if_congr (by simp [initProducerState, mapGet]) rfl rfl

/-! C8 groundwork: the decimal literal layer of the printer and parser. -/

/-- The printed decimal of a natural number is never empty. -/
theorem natCps_ne_nil (n : Nat) : natCps n ≠ [] := by
  rw [natCps]
  split <;> simp

/-- Every codepoint of a printed decimal is a digit. -/
theorem natCps_digits (n : Nat) : ∀ c ∈ natCps n, 48 ≤ c ∧ c ≤ 57 := by
  induction n using Nat.strong_induction_on with
  | _ n ih =>
    rw [natCps]
    split_ifs with h
    · intro c hc
      simp at hc
      omega
    · intro c hc
      rw [List.mem_append] at hc
      rcases hc with hc | hc
      · exact ih (n / 10) (Nat.div_lt_self (by omega) (by omega)) c hc
      · simp at hc
        omega

/-- The printed decimal of a natural number as a nonempty list with a digit
head. -/
theorem natCps_cons (n : Nat) : ∃ d t, natCps n = d :: t ∧ 48 ≤ d ∧ d ≤ 57 := by
  cases hc : natCps n with
  | nil => exact absurd hc (natCps_ne_nil n)
  | cons d t => exact ⟨d, t, rfl, natCps_digits n d (by rw [hc]; simp)⟩

/-- Only the decimal of zero is the single digit zero. -/
theorem natCps_eq_zero (m : Nat) (hm : natCps m = [48]) : m = 0 := by
  rw [natCps] at hm
  split_ifs at hm with h10
  · simp at hm
    omega
  · obtain ⟨d, t, hdt, _, _⟩ := natCps_cons (m / 10)
    rw [hdt] at hm
    simp at hm

/-- A printed decimal starting with the digit zero is exactly the decimal
of zero. -/
theorem natCps_lead (n : Nat) : ∀ t, natCps n = 48 :: t → t = [] := by
  induction n using Nat.strong_induction_on with
  | _ n ih =>
    intro t ht
    rw [natCps] at ht
    split_ifs at ht with h
    · simp at ht
      exact ht.2
    · obtain ⟨d, t', hshape, _, _⟩ := natCps_cons (n / 10)
      rw [hshape] at ht
      simp at ht
      obtain ⟨hd, _⟩ := ht
      have ht' := ih (n / 10) (Nat.div_lt_self (by omega) (by omega)) t' (hd ▸ hshape)
      subst ht'
      have : natCps (n / 10) = [48] := hd ▸ hshape
      have := natCps_eq_zero (n / 10) this
      omega

/-- Folding the digit accumulator over a printed decimal. -/
theorem digitsVal_aux (n : Nat) : ∀ a : Nat,
    (natCps n).foldl (fun a c => a * 10 + (c - 48)) a =
      a * 10 ^ (natCps n).length + n := by
  induction n using Nat.strong_induction_on with
  | _ n ih =>
    intro a
    rw [natCps]
    split_ifs with h
    · simp
    · rw [List.foldl_append, ih (n / 10) (Nat.div_lt_self (by omega) (by omega)) a]
      simp [List.length_append]
      calc (a * 10 ^ (natCps (n / 10)).length + n / 10) * 10 + n % 10
          = a * 10 ^ (natCps (n / 10)).length * 10 + (n / 10 * 10 + n % 10) := by
            rw [Nat.add_mul]
            omega
        _ = a * (10 ^ (natCps (n / 10)).length * 10) + n := by
            rw [Nat.mul_assoc]
            omega
        _ = a * 10 ^ ((natCps (n / 10)).length + 1) + n := by
            rw [pow_succ]

/-- The parsed value of a printed decimal. -/
theorem digitsVal_natCps (n : Nat) : digitsVal (natCps n) = n := by
  simpa [digitsVal] using digitsVal_aux n 0

/-- A numeric separator cannot begin with a digit. -/
theorem numSep_head (c : Nat) (r : List Nat) (h : numSep (c :: r) = true) :
    isDigit c = false := by
  simp [numSep] at h
  tauto

/-- A numeric separator cannot continue a literal with a fraction or
exponent marker. -/
theorem numSep_expoHead (r : List Nat) (h : numSep r = true) : expoHead r = false := by
  cases r with
  | nil => rfl
  | cons c r' =>
    simp [numSep] at h
    simp [expoHead]
    tauto

/-- takeDigits splits a digit block followed by a separator exactly at the
block boundary. -/
theorem takeDigits_append (ds r : List Nat) (hds : ∀ c ∈ ds, isDigit c = true)
    (hr : numSep r = true) : takeDigits (ds ++ r) = (ds, r) := by
  induction ds with
  | nil =>
    cases r with
    | nil => rfl
    | cons c r' => simp [takeDigits, numSep_head c r' hr]
  | cons d ds' ih =>
    have hd : isDigit d = true := hds d (by simp)
    simp [takeDigits, hd, ih (fun c hc => hds c (by simp [hc]))]

/-- Parsing the printed unsigned decimal before a separator recovers the
number. -/
theorem parseNatLit_print (n : Nat) (rest : List Nat) (hsep : numSep rest = true) :
    parseNatLit (natCps n ++ rest) = some (n, rest) := by
  have hdigits : ∀ c ∈ natCps n, isDigit c = true := by
    intro c hc
    have := natCps_digits n c hc
    simp [isDigit]
    omega
  obtain ⟨d, t, hshape, hd1, hd2⟩ := natCps_cons n
  rw [parseNatLit, takeDigits_append (natCps n) rest hdigits hsep, hshape]
  simp only []
  rw [if_neg (fun hcontra => hcontra.2 (natCps_lead n t (hcontra.1 ▸ hshape)))]
  rw [numSep_expoHead rest hsep]
  simp [← hshape, digitsVal_natCps]

/-- Parsing a printed integer before a separator recovers the integer. -/
theorem parseNum_print (n : Int) (rest : List Nat) (hsep : numSep rest = true) :
    parseNum (intCps n ++ rest) = some (n, rest) := by
  rw [intCps]
  split_ifs with hneg
  · simp only [List.cons_append, parseNum, if_pos rfl]
    rw [parseNatLit_print n.natAbs rest hsep]
    have habs : -((n.natAbs : Nat) : Int) = n := by omega
    rw [Option.map_some', habs]
    simp
  · obtain ⟨d, t, hshape, hd1, hd2⟩ := natCps_cons n.natAbs
    rw [hshape]
    simp only [List.cons_append, parseNum]
    rw [if_neg (by omega)]
    rw [← List.cons_append, ← hshape, parseNatLit_print n.natAbs rest hsep]
    have habs : ((n.natAbs : Nat) : Int) = n := by omega
    rw [Option.map_some', habs]

/-! C8 groundwork: the string literal layer and head-shape lemmas. -/

/-- Decoding a printed hexadecimal digit. -/
theorem hexVal_hexCp : ∀ d : Nat, d < 16 → hexVal (hexCp d) = some d := by
  decide

/-- Parsing a printed string body (the escaped characters followed by the
closing quote) recovers the codepoints and leaves the continuation. -/
theorem parseStrBody_print (s : List Nat) : ∀ rest : List Nat,
    parseStrBody (s.flatMap escCps ++ 34 :: rest) = some (s, rest) := by
  induction s with
  | nil =>
    intro rest
    rw [parseStrBody.eq_def]
    simp
  | cons c s' ih =>
    intro rest
    rw [List.flatMap_cons, List.append_assoc, escCps]
    split_ifs with h34 h92 h8 h9 h10 h12 h13 hctl
    · subst h34
      rw [parseStrBody.eq_def]
      simp [escDecode, ih rest]
    · subst h92
      rw [parseStrBody.eq_def]
      simp [escDecode, ih rest]
    · subst h8
      rw [parseStrBody.eq_def]
      simp [escDecode, ih rest]
    · subst h9
      rw [parseStrBody.eq_def]
      simp [escDecode, ih rest]
    · subst h10
      rw [parseStrBody.eq_def]
      simp [escDecode, ih rest]
    · subst h12
      rw [parseStrBody.eq_def]
      simp [escDecode, ih rest]
    · subst h13
      rw [parseStrBody.eq_def]
      simp [escDecode, ih rest]
    · have h48 : hexVal 48 = some 0 := rfl
      have hdiv : hexVal (hexCp (c / 16)) = some (c / 16) := hexVal_hexCp _ (by omega)
      have hmod : hexVal (hexCp (c % 16)) = some (c % 16) := hexVal_hexCp _ (by omega)
      have hu : c / 16 * 16 + c % 16 = c := by omega
      have hv : validCp c = true := by
        simp [validCp]
        omega
      rw [parseStrBody.eq_def]
      simp [h48, hdiv, hmod, hu, hv, ih rest]
    · rw [parseStrBody.eq_def]
      simp [h34, h92, hctl, ih rest]

/-- Consuming an expected literal. -/
theorem dropLit_self (ls : List Nat) : ∀ s : List Nat, dropLit ls (ls ++ s) = some s := by
  induction ls with
  | nil => intro s; rfl
  | cons l ls' ih => intro s; simp [dropLit, ih]

/-- skipWs leaves input whose head is not whitespace alone. -/
theorem skipWs_cons (c : Nat) (t : List Nat) (h : isWs c = false) :
    skipWs (c :: t) = c :: t := by
  simp [skipWs, h]

/-- The head codepoint of a printed integer is a minus sign or a digit. -/
theorem intCps_head (n : Int) : ∃ c t, intCps n = c :: t ∧
    (c = 45 ∨ (48 ≤ c ∧ c ≤ 57)) := by
  rw [intCps]
  split_ifs with hneg
  · exact ⟨45, natCps n.natAbs, rfl, Or.inl rfl⟩
  · obtain ⟨d, t, hshape, hd1, hd2⟩ := natCps_cons n.natAbs
    exact ⟨d, t, hshape, Or.inr ⟨hd1, hd2⟩⟩

/-- The head codepoint of any printed value is a value-start character:
one of the literal heads, a quote, an opening bracket or brace, a minus
sign or a digit. -/
theorem jprint_head (v : Json) : ∃ c t, jprint v = c :: t ∧
    (c = 110 ∨ c = 116 ∨ c = 102 ∨ c = 34 ∨ c = 91 ∨ c = 123 ∨ c = 45 ∨
      (48 ≤ c ∧ c ≤ 57)) := by
  cases v with
  | null => exact ⟨110, [117, 108, 108], by simp [jprint], by tauto⟩
  | bool b =>
    cases b with
    | false => exact ⟨102, [97, 108, 115, 101], by simp [jprint], by tauto⟩
    | true => exact ⟨116, [114, 117, 101], by simp [jprint], by tauto⟩
  | num n =>
    obtain ⟨c, t, hshape, hc⟩ := intCps_head n
    exact ⟨c, t, by simp [jprint, hshape], by tauto⟩
  | str s => exact ⟨34, s.flatMap escCps ++ [34], by simp [jprint, strCps], by tauto⟩
  | arr xs => exact ⟨91, jprintElems xs ++ [93], by simp [jprint], by tauto⟩
  | obj ms => exact ⟨123, jprintMembers ms ++ [125], by simp [jprint], by tauto⟩

/-- The printed form of a nonempty element list starts with the printed
form of its first element. -/
theorem jprintElems_eq (x : Json) (xs : List Json) :
    ∃ tl, jprintElems (x :: xs) = jprint x ++ tl := by
  cases xs with
  | nil => exact ⟨[], by simp [jprintElems]⟩
  | cons y ys => exact ⟨44 :: jprintElems (y :: ys), by simp [jprintElems]⟩

/-- The printed form of a nonempty member list starts with a quote. -/
theorem jprintMembers_head (k : List Nat) (w : Json) (ms : List (List Nat × Json)) :
    ∃ t2, jprintMembers ((k, w) :: ms) = 34 :: t2 := by
  cases ms with
  | nil =>
    exact ⟨k.flatMap escCps ++ 34 :: 58 :: jprint w, by simp [jprintMembers, strCps]⟩
  | cons m' ms' =>
    exact ⟨k.flatMap escCps ++ 34 :: 58 :: (jprint w ++ 44 :: jprintMembers (m' :: ms')),
      by simp [jprintMembers, strCps]⟩

/-- A printed string literal followed by a continuation, re-associated to
expose the opening quote, body and closing quote. -/
theorem strCps_append (k X : List Nat) :
    strCps k ++ X = 34 :: (k.flatMap escCps ++ 34 :: X) := by
  simp [strCps]

/-- A printed string literal has at least the two quotes. -/
theorem strCps_length (k : List Nat) : 2 ≤ (strCps k).length := by
  simp [strCps]

/-! C8: the full payload round trip. -/

/-- Joint round trip of the three mutually recursive parsers against the
three printers: with fuel exceeding the printed length, parsing a printed
value (or a printed nonempty element or member list with its closer)
before a suitable continuation succeeds and recovers the value. -/
theorem parse_print : ∀ fuel : Nat,
    (∀ (v : Json) (rest : List Nat), (jprint v).length < fuel → numSep rest = true →
      parseVal fuel (jprint v ++ rest) = some (v, rest)) ∧
    (∀ (x : Json) (xs : List Json) (rest : List Nat),
      (jprintElems (x :: xs)).length + 1 < fuel →
      parseElems fuel (jprintElems (x :: xs) ++ 93 :: rest) = some (x :: xs, rest)) ∧
    (∀ (k : List Nat) (w : Json) (ms : List (List Nat × Json)) (rest : List Nat),
      (jprintMembers ((k, w) :: ms)).length + 1 < fuel →
      parseMembers fuel (jprintMembers ((k, w) :: ms) ++ 125 :: rest) =
        some ((k, w) :: ms, rest)) := by
  intro fuel
  induction fuel with
  | zero =>
    refine ⟨fun v rest hlen _ => ?_, fun x xs rest hlen => ?_, fun k w ms rest hlen => ?_⟩ <;>
      omega
  | succ fuel ih =>
    obtain ⟨ihV, ihE, ihM⟩ := ih
    refine ⟨?_, ?_, ?_⟩
    · intro v rest hlen hsep
      cases v with
      | null =>
        rw [show jprint Json.null = [110, 117, 108, 108] from by simp [jprint]]
        simp [parseVal, skipWs, isWs, dropLit]
      | bool b =>
        cases b with
        | true =>
          rw [show jprint (Json.bool true) = [116, 114, 117, 101] from by simp [jprint]]
          simp [parseVal, skipWs, isWs, dropLit]
        | false =>
          rw [show jprint (Json.bool false) = [102, 97, 108, 115, 101] from by simp [jprint]]
          simp [parseVal, skipWs, isWs, dropLit]
      | num n =>
        obtain ⟨c, t, hshape, hc⟩ := intCps_head n
        have hnum := parseNum_print n rest hsep
        rw [show jprint (Json.num n) = intCps n from by simp [jprint], hshape,
          List.cons_append]
        rw [hshape, List.cons_append] at hnum
        have hws : isWs c = false := by
          simp [isWs]
          omega
        have h110 : ¬ c = 110 := by omega
        have h116 : ¬ c = 116 := by omega
        have h102 : ¬ c = 102 := by omega
        have h34 : ¬ c = 34 := by omega
        have h91 : ¬ c = 91 := by omega
        have h123 : ¬ c = 123 := by omega
        simp [parseVal, skipWs, hws, h110, h116, h102, h34, h91, h123, hnum]
      | str s =>
        rw [show jprint (Json.str s) ++ rest = 34 :: (s.flatMap escCps ++ 34 :: rest) from
          by simp [jprint, strCps]]
        simp [parseVal, skipWs, isWs, parseStrBody_print s rest]
      | arr xs =>
        cases xs with
        | nil =>
          rw [show jprint (Json.arr []) = [91, 93] from by simp [jprint, jprintElems]]
          simp [parseVal, skipWs, isWs]
        | cons x xs' =>
          obtain ⟨tl, htl⟩ := jprintElems_eq x xs'
          obtain ⟨c, t, hx, hc⟩ := jprint_head x
          have hE : jprintElems (x :: xs') ++ 93 :: rest = c :: (t ++ (tl ++ 93 :: rest)) := by
            rw [htl, hx]
            simp
          have hws : isWs c = false := by
            simp [isWs]
            omega
          have hne93 : ¬ c = 93 := by omega
          have hlen' : (jprintElems (x :: xs')).length + 1 < fuel := by
            rw [show jprint (Json.arr (x :: xs')) =
              91 :: (jprintElems (x :: xs') ++ [93]) from by simp [jprint]] at hlen
            simp at hlen
            omega
          have hparse := ihE x xs' rest hlen'
          rw [hE] at hparse
          rw [show jprint (Json.arr (x :: xs')) ++ rest =
            91 :: (jprintElems (x :: xs') ++ 93 :: rest) from by simp [jprint]]
          simp [parseVal, skipWs, hE, hws, hne93, hparse, show isWs 91 = false from rfl]
      | obj ms =>
        cases ms with
        | nil =>
          rw [show jprint (Json.obj []) = [123, 125] from by simp [jprint, jprintMembers]]
          simp [parseVal, skipWs, isWs]
        | cons m ms' =>
          obtain ⟨k, w⟩ := m
          obtain ⟨t2, hm⟩ := jprintMembers_head k w ms'
          have hM : jprintMembers ((k, w) :: ms') ++ 125 :: rest =
              34 :: (t2 ++ 125 :: rest) := by
            rw [hm]
            simp
          have hlen' : (jprintMembers ((k, w) :: ms')).length + 1 < fuel := by
            rw [show jprint (Json.obj ((k, w) :: ms')) =
              123 :: (jprintMembers ((k, w) :: ms') ++ [125]) from by simp [jprint]] at hlen
            simp at hlen
            omega
          have hparse := ihM k w ms' rest hlen'
          rw [hM] at hparse
          rw [show jprint (Json.obj ((k, w) :: ms')) ++ rest =
            123 :: (jprintMembers ((k, w) :: ms') ++ 125 :: rest) from by simp [jprint]]
          simp [parseVal, skipWs, isWs, hM, hparse]
    · intro x xs rest hlen
      cases xs with
      | nil =>
        rw [show jprintElems [x] = jprint x from by simp [jprintElems]] at hlen ⊢
        have hV := ihV x (93 :: rest) (by omega) rfl
        simp [parseElems, hV, skipWs, isWs]
      | cons y ys =>
        rw [show jprintElems (x :: y :: ys) = jprint x ++ 44 :: jprintElems (y :: ys) from
          by simp [jprintElems]] at hlen ⊢
        obtain ⟨c, t, hx, hc⟩ := jprint_head x
        have hlx : (jprint x).length < fuel := by
          simp at hlen
          omega
        have hlE : (jprintElems (y :: ys)).length + 1 < fuel := by
          have h1 : 1 ≤ (jprint x).length := by
            rw [hx]
            simp
          simp at hlen
          omega
        have hV := ihV x (44 :: (jprintElems (y :: ys) ++ 93 :: rest)) hlx rfl
        have hE := ihE y ys rest hlE
        rw [show (jprint x ++ 44 :: jprintElems (y :: ys)) ++ 93 :: rest =
          jprint x ++ (44 :: (jprintElems (y :: ys) ++ 93 :: rest)) from by simp]
        simp [parseElems, hV, hE, skipWs, isWs]
    · intro k w ms rest hlen
      cases ms with
      | nil =>
        rw [show jprintMembers [(k, w)] = strCps k ++ 58 :: jprint w from
          by simp [jprintMembers]] at hlen ⊢
        have hS := strCps_length k
        have hlw : (jprint w).length < fuel := by
          simp at hlen
          simp [strCps] at hS
          omega
        have hV := ihV w (125 :: rest) hlw rfl
        rw [show (strCps k ++ 58 :: jprint w) ++ 125 :: rest =
          34 :: (k.flatMap escCps ++ 34 :: (58 :: (jprint w ++ 125 :: rest))) from
          by simp [strCps]]
        simp [parseMembers, skipWs, isWs,
          parseStrBody_print k (58 :: (jprint w ++ 125 :: rest)), hV]
      | cons m' ms' =>
        obtain ⟨k2, w2⟩ := m'
        rw [show jprintMembers ((k, w) :: (k2, w2) :: ms') =
          strCps k ++ 58 :: (jprint w ++ 44 :: jprintMembers ((k2, w2) :: ms')) from
          by simp [jprintMembers]] at hlen ⊢
        obtain ⟨cw, tw, hw, hcw⟩ := jprint_head w
        have hS := strCps_length k
        have hlw : (jprint w).length < fuel := by
          simp at hlen
          simp [strCps] at hS
          omega
        have hlM : (jprintMembers ((k2, w2) :: ms')).length + 1 < fuel := by
          have h1 : 1 ≤ (jprint w).length := by
            rw [hw]
            simp
          simp at hlen
          simp [strCps] at hS
          omega
        have hV := ihV w (44 :: (jprintMembers ((k2, w2) :: ms') ++ 125 :: rest)) hlw rfl
        have hM := ihM k2 w2 ms' rest hlM
        rw [show (strCps k ++ 58 :: (jprint w ++ 44 :: jprintMembers ((k2, w2) :: ms'))) ++
            125 :: rest =
          34 :: (k.flatMap escCps ++ 34 ::
            (58 :: (jprint w ++ 44 :: (jprintMembers ((k2, w2) :: ms') ++ 125 :: rest)))) from
          by simp [strCps]]
        simp [parseMembers, skipWs, isWs,
          parseStrBody_print k
            (58 :: (jprint w ++ 44 :: (jprintMembers ((k2, w2) :: ms') ++ 125 :: rest))),
          hV, hM]

/-- JSON.parse inverts JSON.stringify on the model. -/
theorem jparse_jprint (v : Json) : jparse (jprint v) = some v := by
  have h := (parse_print ((jprint v).length + 1)).1 v [] (by omega) rfl
  rw [List.append_nil] at h
  simp [jparse, h, skipWs]

/-- The UTF-8 encoding of one valid scalar value is nonempty and decodes
exactly, in front of any continuation. -/
theorem utf8Char_decode (c : Nat) (hv : validCp c = true) :
    ∃ b tl, utf8Char c = b :: tl ∧
      ∀ r : List Nat, utf8DecodeChar (b :: (tl ++ r)) = some (c, tl.length) := by
  have hv' : c < 0xD800 ∨ (0xDFFF < c ∧ c < 0x110000) := by
    simp [validCp] at hv
    tauto
  rw [utf8Char]
  split_ifs with h1 h2 h3
  · refine ⟨c, [], rfl, fun r => ?_⟩
    simp [utf8DecodeChar, h1]
  · refine ⟨0xC0 + c / 64, [0x80 + c % 64], rfl, fun r => ?_⟩
    have e1 : ¬ (0xC0 + c / 64 < 0x80) := by omega
    have e2 : ¬ (0xC0 + c / 64 < 0xC2) := by omega
    have e3 : 0xC0 + c / 64 < 0xE0 := by omega
    have e4 : 0x80 ≤ 0x80 + c % 64 ∧ 0x80 + c % 64 < 0xC0 := by omega
    simp [utf8DecodeChar, e1, e2, e3, e4]
    omega
  · refine ⟨0xE0 + c / 4096, [0x80 + c / 64 % 64, 0x80 + c % 64], rfl, fun r => ?_⟩
    have e1 : ¬ (0xE0 + c / 4096 < 0x80) := by omega
    have e2 : ¬ (0xE0 + c / 4096 < 0xC2) := by omega
    have e3 : ¬ (0xE0 + c / 4096 < 0xE0) := by omega
    have e4 : 0xE0 + c / 4096 < 0xF0 := by omega
    have e5 : 0x80 ≤ 0x80 + c / 64 % 64 ∧ 0x80 + c / 64 % 64 < 0xC0 ∧
        0x80 ≤ 0x80 + c % 64 ∧ 0x80 + c % 64 < 0xC0 := by omega
    have e6 : (0xE0 + c / 4096 - 0xE0) * 4096 + (0x80 + c / 64 % 64 - 0x80) * 64 +
        (0x80 + c % 64 - 0x80) = c := by omega
    have e6b : c / 4096 * 4096 + c / 64 % 64 * 64 + c % 64 = c := by omega
    have e8 : 0x800 ≤ c := by omega
    simp [utf8DecodeChar, e1, e2, e3, e4, e5, e6, e6b, e8, hv]
  · refine ⟨0xF0 + c / 262144,
      [0x80 + c / 4096 % 64, 0x80 + c / 64 % 64, 0x80 + c % 64], rfl, fun r => ?_⟩
    have hup : c < 0x110000 := by omega
    have e1 : ¬ (0xF0 + c / 262144 < 0x80) := by omega
    have e2 : ¬ (0xF0 + c / 262144 < 0xC2) := by omega
    have e3 : ¬ (0xF0 + c / 262144 < 0xE0) := by omega
    have e4 : ¬ (0xF0 + c / 262144 < 0xF0) := by omega
    have e5 : 0xF0 + c / 262144 < 0xF5 := by omega
    have e6 : 0x80 ≤ 0x80 + c / 4096 % 64 ∧ 0x80 + c / 4096 % 64 < 0xC0 ∧
        0x80 ≤ 0x80 + c / 64 % 64 ∧ 0x80 + c / 64 % 64 < 0xC0 ∧
        0x80 ≤ 0x80 + c % 64 ∧ 0x80 + c % 64 < 0xC0 := by omega
    have e7 : (0xF0 + c / 262144 - 0xF0) * 262144 + (0x80 + c / 4096 % 64 - 0x80) * 4096 +
        (0x80 + c / 64 % 64 - 0x80) * 64 + (0x80 + c % 64 - 0x80) = c := by omega
    have e7b : c / 262144 * 262144 + c / 4096 % 64 * 4096 + c / 64 % 64 * 64 + c % 64 = c := by
      omega
    have e8 : 0x10000 ≤ c := by omega
    simp [utf8DecodeChar, e1, e2, e3, e4, e5, e6, e7, e7b, e8, hup]

/-- The fuelled lossy decode of encoded valid text, for any fuel at least
the byte count. -/
theorem utf8_decodeF (s : List Nat) : ∀ fuel : Nat,
    (utf8Encode s).length ≤ fuel → s.all validCp = true →
    utf8DecodeLossyF fuel (utf8Encode s) = s := by
  induction s with
  | nil =>
    intro fuel _ _
    cases fuel <;> simp [utf8Encode, utf8DecodeLossyF]
  | cons c s' ih =>
    intro fuel hlen hall
    rw [List.all_cons, Bool.and_eq_true] at hall
    obtain ⟨b, tl, hshape, hdec⟩ := utf8Char_decode c hall.1
    have henc : utf8Encode (c :: s') = b :: (tl ++ utf8Encode s') := by
      simp [utf8Encode, hshape]
    rw [henc] at hlen ⊢
    cases fuel with
    | zero => simp at hlen
    | succ fuel =>
      simp only [utf8DecodeLossyF, hdec]
      rw [List.drop_left]
      rw [ih fuel (by simp at hlen; omega) hall.2]

/-- Buffer.toString inverts Buffer.from on valid text. -/
theorem utf8_roundtrip (s : List Nat) (h : s.all validCp = true) :
    utf8DecodeLossy (utf8Encode s) = s :=
  utf8_decodeF s (utf8Encode s).length (le_refl _) h

/-- A printed decimal consists of valid scalar values. -/
theorem natCps_valid (n : Nat) : (natCps n).all validCp = true := by
  rw [List.all_eq_true]
  intro c hc
  have := natCps_digits n c hc
  simp [validCp]
  omega

/-- A printed integer consists of valid scalar values. -/
theorem intCps_valid (n : Int) : (intCps n).all validCp = true := by
  rw [intCps]
  split_ifs
  · simp [List.all_cons, natCps_valid, validCp]
  · exact natCps_valid _

/-- The escape of a valid character consists of valid scalar values. -/
theorem escCps_valid (c : Nat) (h : validCp c = true) : (escCps c).all validCp = true := by
  rw [escCps]
  split_ifs with h34 h92 h8 h9 h10 h12 h13 hctl
  · rfl
  · rfl
  · rfl
  · rfl
  · rfl
  · rfl
  · rfl
  · have hx : ∀ d : Nat, d < 16 → validCp (hexCp d) = true := by decide
    simp [List.all_cons, hx (c / 16) (by omega), hx (c % 16) (by omega),
      show validCp 92 = true from rfl, show validCp 117 = true from rfl,
      show validCp 48 = true from rfl]
  · simp [List.all_cons, h]

/-- The escaped body of a valid string consists of valid scalar values. -/
theorem flatMap_escCps_valid (k : List Nat) (h : k.all validCp = true) :
    (k.flatMap escCps).all validCp = true := by
  induction k with
  | nil => rfl
  | cons c k' ih =>
    rw [List.all_cons, Bool.and_eq_true] at h
    simp [List.flatMap_cons, List.all_append, escCps_valid c h.1, ih h.2]

/-- A printed string literal of a valid string consists of valid scalar
values. -/
theorem strCps_valid (k : List Nat) (h : k.all validCp = true) :
    (strCps k).all validCp = true := by
  simp [strCps, List.all_cons, List.all_append, flatMap_escCps_valid k h, validCp]

/-- Size-bounded induction for jprint_valid over the nested value,
element-list and member-list structure. -/
theorem jprint_valid_aux : ∀ n : Nat,
    (∀ v : Json, sizeOf v ≤ n → jwf v = true → (jprint v).all validCp = true) ∧
    (∀ xs : List Json, sizeOf xs ≤ n → jwfElems xs = true →
      (jprintElems xs).all validCp = true) ∧
    (∀ ms : List (List Nat × Json), sizeOf ms ≤ n → jwfMembers ms = true →
      (jprintMembers ms).all validCp = true) := by
  intro n
  induction n with
  | zero =>
    refine ⟨fun v hs _ => ?_, fun xs hs _ => ?_, fun ms hs _ => ?_⟩
    · cases v <;> simp at hs
    · cases xs <;> simp at hs
    · cases ms <;> simp at hs
  | succ n ihn =>
    obtain ⟨ihv, ihe, ihm⟩ := ihn
    refine ⟨?_, ?_, ?_⟩
    · intro v hs hwf
      cases v with
      | null =>
        rw [show jprint Json.null = [110, 117, 108, 108] from by simp [jprint]]
        rfl
      | bool b =>
        cases b with
        | true =>
          rw [show jprint (Json.bool true) = [116, 114, 117, 101] from by simp [jprint]]
          rfl
        | false =>
          rw [show jprint (Json.bool false) = [102, 97, 108, 115, 101] from by simp [jprint]]
          rfl
      | num m =>
        rw [show jprint (Json.num m) = intCps m from by simp [jprint]]
        exact intCps_valid m
      | str s =>
        rw [show jprint (Json.str s) = strCps s from by simp [jprint]]
        apply strCps_valid
        rw [show jwf (Json.str s) = s.all validCp from by simp [jwf]] at hwf
        exact hwf
      | arr xs =>
        rw [show jprint (Json.arr xs) = 91 :: (jprintElems xs ++ [93]) from by simp [jprint]]
        have he : (jprintElems xs).all validCp = true := by
          apply ihe xs (by simp at hs; omega)
          rw [show jwf (Json.arr xs) = jwfElems xs from by simp [jwf]] at hwf
          exact hwf
        simp [List.all_cons, List.all_append, he, validCp]
      | obj ms =>
        rw [show jprint (Json.obj ms) = 123 :: (jprintMembers ms ++ [125]) from
          by simp [jprint]]
        have he : (jprintMembers ms).all validCp = true := by
          apply ihm ms (by simp at hs; omega)
          rw [show jwf (Json.obj ms) = jwfMembers ms from by simp [jwf]] at hwf
          exact hwf
        simp [List.all_cons, List.all_append, he, validCp]
    · intro xs hs hwf
      cases xs with
      | nil =>
        rw [show jprintElems [] = [] from by simp [jprintElems]]
        rfl
      | cons x xs' =>
        rw [show jwfElems (x :: xs') = (jwf x && jwfElems xs') from by simp [jwfElems],
          Bool.and_eq_true] at hwf
        cases xs' with
        | nil =>
          rw [show jprintElems [x] = jprint x from by simp [jprintElems]]
          exact ihv x (by simp at hs; omega) hwf.1
        | cons y ys =>
          rw [show jprintElems (x :: y :: ys) = jprint x ++ 44 :: jprintElems (y :: ys) from
            by simp [jprintElems]]
          have h1 := ihv x (by simp at hs; omega) hwf.1
          have h2 := ihe (y :: ys) (by simp at hs ⊢; omega) hwf.2
          simp [List.all_append, List.all_cons, h1, h2, validCp]
    · intro ms hs hwf
      cases ms with
      | nil =>
        rw [show jprintMembers [] = [] from by simp [jprintMembers]]
        rfl
      | cons m ms' =>
        obtain ⟨k, w⟩ := m
        rw [show jwfMembers ((k, w) :: ms') = (k.all validCp && jwf w && jwfMembers ms') from
          by simp [jwfMembers], Bool.and_eq_true, Bool.and_eq_true] at hwf
        cases ms' with
        | nil =>
          rw [show jprintMembers [(k, w)] = strCps k ++ 58 :: jprint w from
            by simp [jprintMembers]]
          have h1 := strCps_valid k hwf.1.1
          have h2 := ihv w (by simp at hs; omega) hwf.1.2
          simp [List.all_append, List.all_cons, h1, h2, validCp]
        | cons m2 ms2 =>
          rw [show jprintMembers ((k, w) :: m2 :: ms2) =
            strCps k ++ 58 :: (jprint w ++ 44 :: jprintMembers (m2 :: ms2)) from
            by simp [jprintMembers]]
          have h1 := strCps_valid k hwf.1.1
          have h2 := ihv w (by simp at hs; omega) hwf.1.2
          have h3 := ihm (m2 :: ms2) (by simp at hs ⊢; omega) hwf.2
          simp [List.all_append, List.all_cons, h1, h2, h3, validCp]

/-- The printed text of a well-formed value consists of valid scalar
values. -/
theorem jprint_valid (v : Json) (h : jwf v = true) : (jprint v).all validCp = true :=
  (jprint_valid_aux (sizeOf v)).1 v (le_refl _) h

/-- C8: a JSON-representable value encoded as produce does
(JSON.stringify, then UTF-8 bytes) and decoded as the consumer loop does
(UTF-8 text, then JSON.parse) round-trips to an equal value. -/
theorem payload_roundtrip (v : Json) (hwf : jwf v = true) :
    decodeData (encodePayload v) = some v := by
  show jparse (utf8DecodeLossy (utf8Encode (jprint v))) = some v
  rw [utf8_roundtrip (jprint v) (jprint_valid v hwf), jparse_jprint v]

/-- Witness for C8 at a concrete value. -/
theorem payload_roundtrip_witness :
    jwf (Json.num 7) = true ∧ decodeData (encodePayload (Json.num 7)) = some (Json.num 7) :=
  ⟨by simp [jwf], payload_roundtrip (Json.num 7) (by simp [jwf])⟩

end NestjsPulsar
